import Mathlib

/-!
Verification of the curriculum-grounded worksheet generator: a shallow
embedding of the retrieval/context-assembly logic (rag_engine.py) and the
document composer (pdf_generator.py), with theorems settling the frozen
claims about grade normalization, keyword extraction, topic filtering,
context assembly and document composition.

Python strings are modelled as `List Char` with ASCII case operations
(`Char.toLower`/`Char.toUpper` act exactly on ASCII letters, matching
Python's behaviour on the ASCII range); `str.strip` is modelled with
`Char.isWhitespace`.  Python `dict`s with a known key set are modelled as
structures of `Option` fields, and the curriculum JSON files on disk as an
association list from filename to parsed content.
-/

namespace Steelworks

/-- Whitespace for the purposes of Python `str.strip` / `str.split()`
(ASCII model). -/
abbrev isSpace (c : Char) : Bool := c.isWhitespace

/-- Python `str.lower` (ASCII model), on character lists. -/
def lowerL (s : List Char) : List Char := s.map Char.toLower

/-- Python `str.upper` (ASCII model), on character lists. -/
def upperL (s : List Char) : List Char := s.map Char.toUpper

/-- Python `str.strip()` (remove leading and trailing whitespace). -/
def stripL (s : List Char) : List Char :=
  ((s.dropWhile isSpace).reverse.dropWhile isSpace).reverse

/-- One character of Python `str.title` (ASCII model): a letter is
uppercased when the previous character was not a letter, lowercased
otherwise; non-letters pass through. -/
def titleChar (prevAlpha : Bool) (c : Char) : Char :=
  if c.isAlpha then (if prevAlpha then c.toLower else c.toUpper) else c

/-- Worker for Python `str.title`, carrying whether the previous character
was a letter. -/
def titleAux (prevAlpha : Bool) : List Char → List Char
  | [] => []
  | c :: cs => titleChar prevAlpha c :: titleAux c.isAlpha cs

/-- Python `str.title` (ASCII model). -/
def titleL (s : List Char) : List Char := titleAux false s

/-- Fuel-driven worker for Python `str.replace`: one unit of fuel per
examined position (fuel at least the length of the string suffices, since
every step consumes at least one character). -/
def replaceAux (pat rep : List Char) : Nat → List Char → List Char
  | _, [] => []
  | 0, s => s
  | fuel + 1, c :: cs =>
    if pat ≠ [] ∧ pat.isPrefixOf (c :: cs) then
      rep ++ replaceAux pat rep fuel ((c :: cs).drop pat.length)
    else
      c :: replaceAux pat rep fuel cs

/-- Python `str.replace(pat, rep)` for a non-empty pattern: scan left to
right, replacing non-overlapping occurrences and continuing after the
replacement (an empty pattern, never used by the embedded code, leaves the
string unchanged). -/
def replaceL (pat rep s : List Char) : List Char :=
  replaceAux pat rep s.length s

/-- The decimal digit character for a value below 10 (Python digit
rendering); values ≥ 10 never occur. -/
def digitChar (k : Nat) : Char :=
  if k = 0 then '0' else if k = 1 then '1' else if k = 2 then '2'
  else if k = 3 then '3' else if k = 4 then '4' else if k = 5 then '5'
  else if k = 6 then '6' else if k = 7 then '7' else if k = 8 then '8'
  else if k = 9 then '9' else '*'

/-- Fuel-driven worker for decimal rendering of a natural number (fuel at
least the value suffices, since the value at least halves each step). -/
def natDecimalAux : Nat → Nat → List Char
  | 0, n => [digitChar (n % 10)]
  | fuel + 1, n =>
    if n < 10 then [digitChar n]
    else natDecimalAux fuel (n / 10) ++ [digitChar (n % 10)]

/-- Python `str(n)` for a non-negative integer: standard decimal digits,
most significant first. -/
def natDecimal (n : Nat) : List Char := natDecimalAux n n

/-- Python `str(n)` for an integer (decimal, with a leading minus sign for
negative values). -/
def intDecimal (n : Int) : List Char :=
  if n < 0 then '-' :: natDecimal n.natAbs else natDecimal n.toNat

/-- The numeric value of a decimal digit character. -/
def digitVal (c : Char) : Nat := c.toNat - 48

/-- Python `int(s)` on an already-stripped, unsigned decimal string: all
characters must be digits and there must be at least one (ASCII model;
underscore separators and non-ASCII digits are not modelled). -/
def parseNat? (s : List Char) : Option Nat :=
  if s ≠ [] ∧ s.all Char.isDigit then
    some (s.foldl (fun a c => 10 * a + digitVal c) 0)
  else none

/-- Python `int(s)` on an already-stripped decimal string with an optional
sign (ASCII model). -/
def parseInt? (s : List Char) : Option Int :=
  match s with
  | [] => none
  | c :: cs =>
    if c = '-' then (parseNat? cs).map (fun n => -(n : Int))
    else if c = '+' then (parseNat? cs).map (fun n => (n : Int))
    else (parseNat? (c :: cs)).map (fun n => (n : Int))

/-- The integer-parsing attempt of rag_engine.py line 37:
`int(grade.replace('grade','').replace('th','').replace('rd','')
  .replace('nd','').replace('st','').strip())`, returning `none` for the
`ValueError` path. -/
def gradeIntParse (g : List Char) : Option Int :=
  parseInt? (stripL (replaceL "st".data [] (replaceL "nd".data []
    (replaceL "rd".data [] (replaceL "th".data []
      (replaceL "grade".data [] g))))))

/-- `normalize_grade` (rag_engine.py lines 25-40) on character lists:
trim and lowercase; map "k"/"kindergarten" to "K" and the algebra
spellings to "Algebra 1"; otherwise strip the ordinal/grade markers and
parse as an integer, falling back to title-casing the trimmed lowered
input when parsing fails. -/
def normalizeGradeL (l : List Char) : List Char :=
  let g := lowerL (stripL l)
  if g = "k".data ∨ g = "kindergarten".data then "K".data
  else if g = "algebra 1".data ∨ g = "algebra1".data ∨ g = "algebra".data then
    "Algebra 1".data
  else
    match gradeIntParse g with
    | some n => intDecimal n
    | none => titleL g

/-- `normalize_grade` (rag_engine.py lines 25-40). -/
def normalize_grade (grade : String) : String := ⟨normalizeGradeL grade.data⟩

/-- Worker for Python `str.split()` with no argument: split on runs of
whitespace, producing no empty tokens; `acc` holds the characters of the
word in progress, reversed. -/
def splitWsAux : List Char → List Char → List (List Char)
  | [], acc => if acc = [] then [] else [acc.reverse]
  | c :: cs, acc =>
    if isSpace c then
      if acc = [] then splitWsAux cs [] else acc.reverse :: splitWsAux cs []
    else splitWsAux cs (c :: acc)

/-- Python `str.split()` with no argument, on character lists. -/
def splitWsL (s : List Char) : List (List Char) := splitWsAux s []

/-- Contiguous substring test on character lists: true when `needle`
occurs contiguously in `hay` (the empty needle occurs everywhere). -/
def isInfixL (needle : List Char) : List Char → Bool
  | [] => needle.isEmpty
  | c :: cs => needle.isPrefixOf (c :: cs) || isInfixL needle cs

/-- Python substring containment `needle in hay` for strings. -/
def containsSub (hay needle : String) : Bool :=
  isInfixL needle.data hay.data

/-- Python `str.lower` on strings. -/
def lowerS (s : String) : String := ⟨lowerL s.data⟩

/-- Python `str.upper` on strings. -/
def upperS (s : String) : String := ⟨upperL s.data⟩

/-- Python `str.strip()` on strings. -/
def stripS (s : String) : String := ⟨stripL s.data⟩

/-- Python `str.title()` on strings. -/
def titleS (s : String) : String := ⟨titleL s.data⟩

/-- Python `str.replace` on strings. -/
def replaceS (s pat rep : String) : String := ⟨replaceL pat.data rep.data s.data⟩

/-- The fixed stopword set `common_words` of `extract_keywords`
(rag_engine.py lines 103-105), modelled as a list. -/
def common_words : List String :=
  ["for", "the", "and", "with", "to", "a", "an", "in", "on", "of",
   "grade", "practice", "worksheet", "problems", "questions", "help",
   "learn", "study", "basic", "advanced", "simple", "hard", "easy"]

/-- The whitespace-split word list of `extract_keywords` (rag_engine.py
line 107): lowercase the prompt, replace commas and periods with spaces,
split on whitespace. -/
def promptWords (prompt : String) : List String :=
  (splitWsL (replaceL ".".data " ".data
    (replaceL ",".data " ".data (lowerL prompt.data)))).map (fun w => ⟨w⟩)

/-- `extract_keywords` (rag_engine.py lines 100-110): keep the words that
are not stopwords and have length above 2. -/
def extract_keywords (prompt : String) : List String :=
  (promptWords prompt).filter (fun w => w ∉ common_words ∧ w.length > 2)

/-- A curriculum topic dict: the keys read by `get_curriculum_context` are
`name` (read with default "") and `standards` (presence-checked). -/
structure Topic where
  name : Option String
  standards : Option (List String)
deriving DecidableEq

/-- A per-grade curriculum dict: the keys read by `get_curriculum_context`
are `overview`, `topics`, `vocabulary_level` and `difficulty_guidelines`,
each presence-checked.  A grade entry with none of them present models the
empty dict `{}` (falsy in Python). -/
structure GradeData where
  overview : Option String
  topics : Option (List Topic)
  vocabulary_level : Option String
  difficulty_guidelines : Option String
deriving DecidableEq

/-- Python truthiness of a `GradeData` dict: falsy exactly when no key is
present. -/
def GradeData.isEmptyDict (gd : GradeData) : Bool :=
  gd.overview.isNone && gd.topics.isNone &&
    gd.vocabulary_level.isNone && gd.difficulty_guidelines.isNone

/-- A parsed curriculum JSON file; the only key read is `grades`, a dict
from grade label to grade data, modelled as an association list. -/
structure Curriculum where
  grades : List (String × GradeData)
deriving DecidableEq

/-- The curriculum directory on disk: an association list from filename to
parsed JSON content.  A missing file and an empty (falsy) JSON document
both appear as an absent entry, matching the `FileNotFoundError -> {}` and
`if not curriculum` handling. -/
abbrev CurriculumStore := List (String × Curriculum)

/-- `load_curriculum` (rag_engine.py lines 13-22): look up the file named
from the lowercased subject; `none` models both a missing file and a falsy
(empty) document. -/
def load_curriculum (files : CurriculumStore) (subject : String) : Option Curriculum :=
  files.lookup (lowerS subject ++ "_curriculum.json")

/-- The Python truthiness of the `topic_keywords` argument
(`if topic_keywords:`): `none` and the empty list are both falsy. -/
def keywordsTruthy (kws : Option (List String)) : Bool :=
  kws.getD [] ≠ []

/-- The keyword test of rag_engine.py line 80:
`any(kw.lower() in topic_name.lower() for kw in topic_keywords)`. -/
def keywordMatches (kws : List String) (topic_name : String) : Bool :=
  kws.any (fun kw => containsSub (lowerS topic_name) (lowerS kw))

/-- The standards lines rendered beneath one topic bullet (rag_engine.py
lines 84-86): at most the first 3 standards, each as an indented bullet. -/
def standardsText (topic : Topic) : String :=
  match topic.standards with
  | some ss => String.join ((ss.take 3).map (fun st => "  • " ++ st ++ "\n"))
  | none => ""

/-- The topics block of `get_curriculum_context` (rag_engine.py lines
75-87): a header followed by one bullet line per kept topic, skipping a
topic when keywords were supplied and none matches its name. -/
def topicsText (kws : Option (List String)) (topics : List Topic) : String :=
  topics.foldl (fun acc topic =>
    let topic_name := topic.name.getD ""
    if keywordsTruthy kws ∧ ¬ keywordMatches (kws.getD []) topic_name then acc
    else acc ++ "- " ++ topic_name ++ "\n" ++ standardsText topic)
    "KEY TOPICS:\n"

/-- The `context_parts` list built by `get_curriculum_context`
(rag_engine.py lines 67-95), in source order: overview block, topics
block, vocabulary line, difficulty block, each present exactly when its
key is present in the grade data. -/
def contextParts (normalized_grade : String) (gd : GradeData)
    (kws : Option (List String)) : List String :=
  (match gd.overview with
   | some ov => ["GRADE " ++ normalized_grade ++ " OVERVIEW:\n" ++ ov]
   | none => []) ++
  (match gd.topics with
   | some ts => [topicsText kws ts]
   | none => []) ++
  (match gd.vocabulary_level with
   | some v => ["VOCABULARY LEVEL: " ++ v]
   | none => []) ++
  (match gd.difficulty_guidelines with
   | some dg => ["DIFFICULTY GUIDELINES:\n" ++ dg]
   | none => [])

/-- The fallback sentence of rag_engine.py line 64, naming the subject and
the original (non-normalized) grade string. -/
def fallbackSentence (subject grade : String) : String :=
  "Use age-appropriate " ++ subject ++ " content for grade " ++ grade ++ "."

/-- `get_curriculum_context` (rag_engine.py lines 43-97). -/
def get_curriculum_context (files : CurriculumStore) (subject grade : String)
    (topic_keywords : Option (List String)) : String :=
  match load_curriculum files subject with
  | none => ""
  | some curriculum =>
    let normalized_grade := normalize_grade grade
    match curriculum.grades.lookup normalized_grade with
    | none => fallbackSentence subject grade
    | some grade_data =>
      if grade_data.isEmptyDict then fallbackSentence subject grade
      else
        String.intercalate "\n\n" (contextParts normalized_grade grade_data topic_keywords)

/-- `get_augmented_context` (rag_engine.py lines 113-128): extract
keywords and retrieve the curriculum context, passing `None` when no
keyword was extracted. -/
def get_augmented_context (files : CurriculumStore)
    (prompt subject grade : String) : String :=
  let keywords := extract_keywords prompt
  get_curriculum_context files subject grade
    (if keywords ≠ [] then some keywords else none)

/-- A worked-example dict from the structured content: the keys read by
`generate_pdf` are `problem` and `solution`, both read with default "". -/
structure WorkedExample where
  problem : Option String
  solution : Option String
deriving DecidableEq

/-- A practice-question dict: the keys read by `generate_pdf` are
`question` (default "") and `difficulty` (default "medium"). -/
structure PracticeQuestion where
  question : Option String
  difficulty : Option String
deriving DecidableEq

/-- The structured content dict consumed by `generate_pdf`: `title` and
`explanation` are optional; an absent list key and an empty list are both
falsy in Python, so the list fields are modelled directly as lists. -/
structure Content where
  title : Option String
  explanation : Option String
  worked_examples : List WorkedExample
  practice_questions : List PracticeQuestion
  answer_key : List String
deriving DecidableEq

/-- A ReportLab flowable appended to `elements` by `generate_pdf`: a
paragraph (text plus named style), a spacer, or a page break.  The final
`doc.build(elements)` renders this list in order into the paginated PDF,
so the document's section structure is exactly the structure of this
list. -/
inductive Element
  | par (text : String) (style : String)
  | spacer (width height : Nat)
  | pageBreak
deriving DecidableEq

/-- The fixed difficulty-to-color dict of pdf_generator.py lines 177-181. -/
def difficulty_colors : List (String × String) :=
  [("easy", "#10B981"), ("medium", "#F59E0B"), ("hard", "#EF4444")]

/-- The color chosen for a difficulty value (pdf_generator.py line 182):
`difficulty_colors.get(difficulty.lower(), '#6B7280')`. -/
def diffColor (difficulty : String) : String :=
  (difficulty_colors.lookup (lowerS difficulty)).getD "#6B7280"

/-- The metadata line of pdf_generator.py line 139. -/
def metaText (subject grade date_str : String) : String :=
  "<font color=\x27#6B7280\x27>Subject: " ++ titleS subject ++ " | Grade: "
    ++ grade ++ " | Generated: " ++ date_str ++ "</font>"

/-- The explanation section (pdf_generator.py lines 144-151): present only
when `explanation` is truthy; the text is split on blank lines and each
non-blank piece becomes one body paragraph. -/
def explanationElements (c : Content) : List Element :=
  if (c.explanation.getD "") ≠ "" then
    Element.par "📖 Concept Explanation" "SectionHeader" ::
      ((c.explanation.getD "").splitOn "\n\n").filterMap (fun para =>
        if stripS para ≠ "" then some (Element.par (stripS para) "CustomBodyText")
        else none) ++ [Element.spacer 1 15]
  else []

/-- The per-example flowables of the loop at pdf_generator.py lines
156-166, with `n` the 1-based number of the first example. -/
def exampleItems (n : Nat) : List WorkedExample → List Element
  | [] => []
  | ex :: rest =>
    Element.par ("Example " ++ ⟨natDecimal n⟩) "Subsection" ::
    Element.par ("<b>Problem:</b> " ++ ex.problem.getD "") "CustomBodyText" ::
    Element.par ("<b>Solution:</b><br/>"
      ++ replaceS (ex.solution.getD "") "\n" "<br/>") "CustomBodyText" ::
    Element.spacer 1 10 ::
    exampleItems (n + 1) rest

/-- The worked-examples section (pdf_generator.py lines 154-167). -/
def workedExampleElements (c : Content) : List Element :=
  if c.worked_examples ≠ [] then
    Element.par "✏️ Worked Examples" "SectionHeader" ::
      exampleItems 1 c.worked_examples ++ [Element.spacer 1 15]
  else []

/-- The rendered text of one practice question (pdf_generator.py line
184), with its 1-based number and the difficulty badge markup. -/
def questionText (n : Nat) (q : PracticeQuestion) : String :=
  "<b>" ++ (⟨natDecimal n⟩ : String) ++ ".</b> " ++ q.question.getD ""
    ++ " <font color=\x27" ++ diffColor (q.difficulty.getD "medium")
    ++ "\x27>[" ++ upperS (q.difficulty.getD "medium") ++ "]</font>"

/-- The per-question flowables of the loop at pdf_generator.py lines
172-188, with `n` the 1-based number of the first question. -/
def questionItems (n : Nat) : List PracticeQuestion → List Element
  | [] => []
  | q :: rest =>
    Element.par (questionText n q) "Question" ::
    Element.spacer 1 30 ::
    questionItems (n + 1) rest

/-- The practice-questions section (pdf_generator.py lines 170-189). -/
def questionElements (c : Content) : List Element :=
  if c.practice_questions ≠ [] then
    Element.par "📝 Practice Questions" "SectionHeader" ::
      questionItems 1 c.practice_questions ++ [Element.spacer 1 20]
  else []

/-- The numbered answer paragraphs of the loop at pdf_generator.py lines
198-199, with `n` the 1-based number of the first answer. -/
def answerItems (n : Nat) : List String → List Element
  | [] => []
  | a :: rest =>
    Element.par ("<b>" ++ (⟨natDecimal n⟩ : String) ++ ".</b> " ++ a)
      "CustomBodyText" :: answerItems (n + 1) rest

/-- The answer-key section header paragraph. -/
def akHeader : Element := Element.par "🔑 Answer Key" "SectionHeader"

/-- The answer-key section (pdf_generator.py lines 192-199): rendered only
when `include_answers` is true and the answer list is truthy, and then
opened by a page break. -/
def answerKeyElements (c : Content) (include_answers : Bool) : List Element :=
  if include_answers ∧ c.answer_key ≠ [] then
    Element.pageBreak :: akHeader ::
      Element.par "<i>For teacher/tutor reference</i>" "Answer" ::
      Element.spacer 1 10 :: answerItems 1 c.answer_key
  else []

/-- `generate_pdf` (pdf_generator.py lines 107-208), as the flowable list
handed to `doc.build`: title paragraph, metadata line and spacer, then the
four conditional sections in source order.  `date_str` stands for the
`datetime.now()` date formatted at line 138. -/
def generate_pdf (c : Content) (subject grade : String)
    (include_answers : Bool) (date_str : String) : List Element :=
  Element.par (c.title.getD (titleS subject ++ " Worksheet - Grade " ++ grade))
      "PDFTitle" ::
  Element.par (metaText subject grade date_str) "CustomBodyText" ::
  Element.spacer 1 20 ::
  (explanationElements c ++ workedExampleElements c ++ questionElements c
    ++ answerKeyElements c include_answers)

/-! ### Helper lemmas -/

theorem stringFoldlAppend (l : List String) :
    ∀ (x y : String), l.foldl (fun r s => r ++ s) (x ++ y)
      = x ++ l.foldl (fun r s => r ++ s) y := by
  induction l with
  | nil => intro x y; rfl
  | cons a l ih =>
    intro x y
    simp only [List.foldl_cons]
    rw [String.append_assoc, ih]

theorem stringJoinCons (a : String) (l : List String) :
    String.join (a :: l) = a ++ String.join l := by
  simp only [String.join, List.foldl_cons]
  rw [String.empty_append, ← String.append_empty a, stringFoldlAppend,
    String.append_empty]

/-- The claim's keep condition for a topic: kept when no keywords are
supplied (including the empty keyword list, which is falsy in Python), or
when some keyword is a case-insensitive substring of the topic name. -/
def keptSpec (kws : Option (List String)) (topic_name : String) : Bool :=
  match kws with
  | none => true
  | some ks =>
    ks.isEmpty || ks.any (fun kw => containsSub (lowerS topic_name) (lowerS kw))

theorem keptSpec_eq_not_skip (kws : Option (List String)) (nm : String) :
    keptSpec kws nm = !(keywordsTruthy kws && !(keywordMatches (kws.getD []) nm)) := by
  cases kws with
  | none => simp [keptSpec, keywordsTruthy]
  | some ks =>
    cases ks with
    | nil => simp [keptSpec, keywordsTruthy]
    | cons k ks => simp [keptSpec, keywordsTruthy, keywordMatches]

theorem topicsText_foldl (kws : Option (List String)) :
    ∀ (topics : List Topic) (acc : String),
      topics.foldl (fun acc topic =>
        let topic_name := topic.name.getD ""
        if keywordsTruthy kws ∧ ¬ keywordMatches (kws.getD []) topic_name then acc
        else acc ++ "- " ++ topic_name ++ "\n" ++ standardsText topic) acc
      = acc ++ String.join
          ((topics.filter (fun t => keptSpec kws (t.name.getD ""))).map
            (fun t => "- " ++ t.name.getD "" ++ "\n" ++ standardsText t)) := by
  intro topics
  induction topics with
  | nil =>
    intro acc
    simp [String.join, String.append_empty]
  | cons t ts ih =>
    intro acc
    by_cases h : keywordsTruthy kws ∧ ¬ keywordMatches (kws.getD []) (t.name.getD "")
    · have hkept : keptSpec kws (t.name.getD "") = false := by
        rw [keptSpec_eq_not_skip]
        simp only [h.1, Bool.true_and]
        simpa using h.2
      simp only [List.foldl_cons, if_pos h, List.filter_cons, hkept]
      exact ih acc
    · have hkept : keptSpec kws (t.name.getD "") = true := by
        rw [keptSpec_eq_not_skip]
        rcases Decidable.not_and_iff_or_not.mp h with h1 | h2
        · simp at h1; simp [h1]
        · simp at h2; simp [h2]
      simp only [List.foldl_cons, if_neg h, List.filter_cons, hkept, if_pos]
      rw [ih]
      simp only [List.map_cons, stringJoinCons]
      simp [String.append_assoc]

theorem topicsText_eq_filter (kws : Option (List String)) (topics : List Topic) :
    topicsText kws topics = "KEY TOPICS:\n" ++ String.join
      ((topics.filter (fun t => keptSpec kws (t.name.getD ""))).map
        (fun t => "- " ++ t.name.getD "" ++ "\n" ++ standardsText t)) := by
  exact topicsText_foldl kws topics "KEY TOPICS:\n"

/-! ### Claims -/

/-- C5: `normalize_grade` maps (after trimming and lowercasing) "k" and
"kindergarten" to "K", the algebra spellings (case-insensitively) to
"Algebra 1", and "4th Grade" and "4" to the same canonical value "4". -/
theorem normalize_grade_special_values :
    normalize_grade "k" = "K" ∧ normalize_grade "kindergarten" = "K" ∧
    normalize_grade "K" = "K" ∧ normalize_grade "Kindergarten" = "K" ∧
    normalize_grade " KINDERGARTEN " = "K" ∧
    normalize_grade "algebra 1" = "Algebra 1" ∧
    normalize_grade "algebra1" = "Algebra 1" ∧
    normalize_grade "algebra" = "Algebra 1" ∧
    normalize_grade "Algebra 1" = "Algebra 1" ∧
    normalize_grade "ALGEBRA1" = "Algebra 1" ∧
    normalize_grade "Algebra" = "Algebra 1" ∧
    normalize_grade "4th Grade" = "4" ∧ normalize_grade "4" = "4" ∧
    normalize_grade "4th Grade" = normalize_grade "4" := by
  decide

/-- C7: `extract_keywords` keeps exactly the whitespace-split words of the
lowercased, comma/period-blanked prompt that are not stopwords and have
length above 2; on "Help me practice addition for grade 3" it yields
exactly ["addition"], so it contains "addition" and none of "grade",
"practice", "help", "for". -/
theorem extract_keywords_spec :
    (∀ (prompt w : String),
      w ∈ extract_keywords prompt ↔
        w ∈ promptWords prompt ∧ w ∉ common_words ∧ w.length > 2) ∧
    extract_keywords "Help me practice addition for grade 3" = ["addition"] ∧
    "addition" ∈ extract_keywords "Help me practice addition for grade 3" ∧
    "grade" ∉ extract_keywords "Help me practice addition for grade 3" ∧
    "practice" ∉ extract_keywords "Help me practice addition for grade 3" ∧
    "help" ∉ extract_keywords "Help me practice addition for grade 3" ∧
    "for" ∉ extract_keywords "Help me practice addition for grade 3" := by
  refine ⟨?_, by decide, by decide, by decide, by decide, by decide, by decide⟩
  intro prompt w
  simp [extract_keywords, List.mem_filter]

/-- C9: grounding-context generation is deterministic — for a fixed
curriculum store snapshot, two invocations of `get_augmented_context` with
equal (prompt, subject, grade) inputs return the same string. -/
theorem get_augmented_context_deterministic :
    ∀ (files : CurriculumStore) (p s g p' s' g' : String),
      p = p' → s = s' → g = g' →
      get_augmented_context files p s g = get_augmented_context files p' s' g' := by
  intro files p s g p' s' g' hp hs hg
  subst hp; subst hs; subst hg
  rfl

theorem get_augmented_context_deterministic_witness :
    get_augmented_context [] "teach me fractions" "math" "3"
      = get_augmented_context [] "teach me fractions" "math" "3" :=
  get_augmented_context_deterministic [] "teach me fractions" "math" "3"
    "teach me fractions" "math" "3" rfl rfl rfl

/-- C3: missing curriculum data is non-fatal — with no curriculum record
for the subject the assembled context is the empty string, and with a
record but no entry for the normalized grade the result is the generic
fallback sentence naming the subject and the original grade string. -/
theorem missing_curriculum_fallback :
    ∀ (files : CurriculumStore) (prompt subject grade : String),
      (load_curriculum files subject = none →
        get_augmented_context files prompt subject grade = "") ∧
      (∀ cur : Curriculum, load_curriculum files subject = some cur →
        cur.grades.lookup (normalize_grade grade) = none →
        get_augmented_context files prompt subject grade =
          "Use age-appropriate " ++ subject ++ " content for grade " ++ grade ++ ".") := by
  intro files prompt subject grade
  constructor
  · intro h
    simp [get_augmented_context, get_curriculum_context, h]
  · intro cur hcur hlookup
    simp [get_augmented_context, get_curriculum_context, hcur, hlookup,
      fallbackSentence]

theorem missing_curriculum_fallback_witness :
    get_augmented_context [] "fractions" "math" "3" = "" ∧
    get_augmented_context [("math_curriculum.json", ⟨[]⟩)] "fractions" "math" "7"
      = "Use age-appropriate " ++ "math" ++ " content for grade " ++ "7" ++ "." :=
  ⟨(missing_curriculum_fallback [] "fractions" "math" "3").1 (by decide),
   (missing_curriculum_fallback [("math_curriculum.json", ⟨[]⟩)] "fractions"
      "math" "7").2 ⟨[]⟩ (by decide) (by decide)⟩

/-- C2: topic filtering is inclusive — the topics block renders exactly
the topics kept by `keptSpec` (kept when no keywords are supplied, or when
some keyword is a case-insensitive substring of the topic name), and with
keywords ["fraction"] and topics ["Fractions", "Decimals"] the assembled
context includes "Fractions" and excludes "Decimals". -/
theorem topic_filtering_inclusive :
    (∀ (kws : Option (List String)) (topics : List Topic),
      topicsText kws topics = "KEY TOPICS:\n" ++ String.join
        ((topics.filter (fun t => keptSpec kws (t.name.getD ""))).map
          (fun t => "- " ++ t.name.getD "" ++ "\n" ++ standardsText t))) ∧
    (∀ nm : String, keptSpec none nm = true) ∧
    get_curriculum_context
        [("math_curriculum.json",
          ⟨[("3", ⟨none, some [⟨some "Fractions", none⟩, ⟨some "Decimals", none⟩],
              none, none⟩)]⟩)]
        "math" "3" (some ["fraction"]) = "KEY TOPICS:\n- Fractions\n" ∧
    containsSub (get_curriculum_context
        [("math_curriculum.json",
          ⟨[("3", ⟨none, some [⟨some "Fractions", none⟩, ⟨some "Decimals", none⟩],
              none, none⟩)]⟩)]
        "math" "3" (some ["fraction"])) "Fractions" = true ∧
    containsSub (get_curriculum_context
        [("math_curriculum.json",
          ⟨[("3", ⟨none, some [⟨some "Fractions", none⟩, ⟨some "Decimals", none⟩],
              none, none⟩)]⟩)]
        "math" "3" (some ["fraction"])) "Decimals" = false := by
  refine ⟨topicsText_eq_filter, fun nm => rfl, by decide, by decide, by decide⟩

/-- C8: for every topic rendered into the assembled context, the standard
lines beneath its bullet are exactly the first `take 3` of the topic's
standards — never more than 3, whatever the topic carries. -/
theorem standards_truncated_to_three :
    (∀ t : Topic, standardsText t =
      String.join (((t.standards.getD []).take 3).map
        (fun st => "  • " ++ st ++ "\n"))) ∧
    (∀ (kws : Option (List String)) (topics : List Topic),
      topicsText kws topics = "KEY TOPICS:\n" ++ String.join
        ((topics.filter (fun t => keptSpec kws (t.name.getD ""))).map
          (fun t => "- " ++ t.name.getD "" ++ "\n" ++
            String.join (((t.standards.getD []).take 3).map
              (fun st => "  • " ++ st ++ "\n"))))) ∧
    (∀ t : Topic, ((t.standards.getD []).take 3).length ≤ 3 ∧
      ((t.standards.getD []).take 3).length = min 3 (t.standards.getD []).length) := by
  have hst : ∀ t : Topic, standardsText t =
      String.join (((t.standards.getD []).take 3).map
        (fun st => "  • " ++ st ++ "\n")) := by
    intro t
    cases h : t.standards with
    | none => simp [standardsText, h, String.join]
    | some ss => simp [standardsText, h]
  refine ⟨hst, ?_, ?_⟩
  · intro kws topics
    rw [topicsText_eq_filter]
    congr 1
    congr 1
    apply List.map_congr_left
    intro t _
    rw [hst]
  · intro t
    constructor
    · simp [List.length_take]
    · simp [List.length_take]

/-- C10: when the grade entry carries a `topics` key and the supplied
keywords filter out every topic, the topics block degenerates to the bare
"KEY TOPICS:\n" header, which is still one of the assembled context
parts. -/
theorem key_topics_header_survives_filtering :
    ∀ (files : CurriculumStore) (subject grade : String)
      (kws : Option (List String)) (cur : Curriculum) (gd : GradeData)
      (ts : List Topic),
      load_curriculum files subject = some cur →
      cur.grades.lookup (normalize_grade grade) = some gd →
      gd.isEmptyDict = false →
      gd.topics = some ts →
      (∀ t ∈ ts, keptSpec kws (t.name.getD "") = false) →
      topicsText kws ts = "KEY TOPICS:\n" ∧
      "KEY TOPICS:\n" ∈ contextParts (normalize_grade grade) gd kws ∧
      get_curriculum_context files subject grade kws =
        String.intercalate "\n\n" (contextParts (normalize_grade grade) gd kws) := by
  intro files subject grade kws cur gd ts hload hlookup hne htopics hfilter
  have hfilterNil : ts.filter (fun t => keptSpec kws (t.name.getD "")) = [] := by
    apply List.filter_eq_nil_iff.mpr
    intro t ht
    simp [hfilter t ht]
  have htt : topicsText kws ts = "KEY TOPICS:\n" := by
    rw [topicsText_eq_filter, hfilterNil]
    simp [String.join, String.append_empty]
  refine ⟨htt, ?_, ?_⟩
  · simp only [contextParts, htopics, List.mem_append, List.mem_singleton]
    exact Or.inl (Or.inl (Or.inr htt.symm))
  · simp [get_curriculum_context, hload, hlookup, hne]

theorem key_topics_header_survives_filtering_witness :
    topicsText (some ["zzz"]) [⟨some "Counting", none⟩] = "KEY TOPICS:\n" ∧
    "KEY TOPICS:\n" ∈ contextParts (normalize_grade "3")
      ⟨none, some [⟨some "Counting", none⟩], none, some "keep it gentle"⟩
      (some ["zzz"]) ∧
    get_curriculum_context
      [("math_curriculum.json",
        ⟨[("3", ⟨none, some [⟨some "Counting", none⟩], none, some "keep it gentle"⟩)]⟩)]
      "math" "3" (some ["zzz"]) =
      String.intercalate "\n\n" (contextParts (normalize_grade "3")
        ⟨none, some [⟨some "Counting", none⟩], none, some "keep it gentle"⟩
        (some ["zzz"])) :=
  key_topics_header_survives_filtering
    [("math_curriculum.json",
      ⟨[("3", ⟨none, some [⟨some "Counting", none⟩], none, some "keep it gentle"⟩)]⟩)]
    "math" "3" (some ["zzz"])
    ⟨[("3", ⟨none, some [⟨some "Counting", none⟩], none, some "keep it gentle"⟩)]⟩
    ⟨none, some [⟨some "Counting", none⟩], none, some "keep it gentle"⟩
    [⟨some "Counting", none⟩]
    (by decide) (by decide) (by decide) (by decide) (by decide)

/-! ### Lemmas about the composed flowable list -/

theorem akHeader_not_mem_answerItems (as_ : List String) :
    ∀ n : Nat, akHeader ∉ answerItems n as_ := by
  induction as_ with
  | nil => intro n h; simp [answerItems] at h
  | cons a rest ih =>
    intro n h
    rcases List.mem_cons.mp h with h1 | h2
    · simp [akHeader] at h1
    · exact ih (n + 1) h2

theorem akHeader_not_mem_explanation (c : Content) :
    akHeader ∉ explanationElements c := by
  intro h
  unfold explanationElements at h
  split at h
  · rcases List.mem_cons.mp h with h1 | h2
    · simp [akHeader] at h1
    · rcases List.mem_append.mp h2 with h3 | h4
      · rcases List.mem_filterMap.mp h3 with ⟨para, _, hpara⟩
        split at hpara
        · simp [akHeader] at hpara
        · exact Option.noConfusion hpara
      · simp [akHeader] at h4
  · exact List.not_mem_nil _ h

theorem akHeader_not_mem_exampleItems (xs : List WorkedExample) :
    ∀ n : Nat, akHeader ∉ exampleItems n xs := by
  induction xs with
  | nil => intro n h; simp [exampleItems] at h
  | cons x rest ih =>
    intro n h
    unfold exampleItems at h
    rcases List.mem_cons.mp h with h1 | h2
    · simp [akHeader] at h1
    · rcases List.mem_cons.mp h2 with h3 | h4
      · simp [akHeader] at h3
      · rcases List.mem_cons.mp h4 with h5 | h6
        · simp [akHeader] at h5
        · rcases List.mem_cons.mp h6 with h7 | h8
          · simp [akHeader] at h7
          · exact ih (n + 1) h8

theorem akHeader_not_mem_workedExamples (c : Content) :
    akHeader ∉ workedExampleElements c := by
  intro h
  unfold workedExampleElements at h
  split at h
  · rcases List.mem_cons.mp h with h1 | h2
    · simp [akHeader] at h1
    · rcases List.mem_append.mp h2 with h3 | h4
      · exact akHeader_not_mem_exampleItems c.worked_examples 1 h3
      · simp [akHeader] at h4
  · exact List.not_mem_nil _ h

theorem akHeader_not_mem_questionItems (qs : List PracticeQuestion) :
    ∀ n : Nat, akHeader ∉ questionItems n qs := by
  induction qs with
  | nil => intro n h; simp [questionItems] at h
  | cons q rest ih =>
    intro n h
    unfold questionItems at h
    rcases List.mem_cons.mp h with h1 | h2
    · simp [akHeader] at h1
    · rcases List.mem_cons.mp h2 with h3 | h4
      · simp [akHeader] at h3
      · exact ih (n + 1) h4

theorem akHeader_not_mem_questionElements (c : Content) :
    akHeader ∉ questionElements c := by
  intro h
  unfold questionElements at h
  split at h
  · rcases List.mem_cons.mp h with h1 | h2
    · simp [akHeader] at h1
    · rcases List.mem_append.mp h2 with h3 | h4
      · exact akHeader_not_mem_questionItems c.practice_questions 1 h3
      · simp [akHeader] at h4
  · exact List.not_mem_nil _ h

/-- The flowables preceding the answer-key section in `generate_pdf`. -/
def mainElements (c : Content) (subject grade date_str : String) : List Element :=
  Element.par (c.title.getD (titleS subject ++ " Worksheet - Grade " ++ grade))
      "PDFTitle" ::
  Element.par (metaText subject grade date_str) "CustomBodyText" ::
  Element.spacer 1 20 ::
  (explanationElements c ++ workedExampleElements c ++ questionElements c)

theorem generate_pdf_split (c : Content) (subject grade : String)
    (inc : Bool) (date_str : String) :
    generate_pdf c subject grade inc date_str
      = mainElements c subject grade date_str ++ answerKeyElements c inc := by
  simp [generate_pdf, mainElements, List.append_assoc]

theorem akHeader_not_mem_main (c : Content) (subject grade date_str : String) :
    akHeader ∉ mainElements c subject grade date_str := by
  intro h
  unfold mainElements at h
  rcases List.mem_cons.mp h with h1 | h2
  · simp [akHeader] at h1
  · rcases List.mem_cons.mp h2 with h3 | h4
    · simp [akHeader] at h3
    · rcases List.mem_cons.mp h4 with h5 | h6
      · simp [akHeader] at h5
      · rcases List.mem_append.mp h6 with h7 | h8
        · rcases List.mem_append.mp h7 with h9 | h10
          · exact akHeader_not_mem_explanation c h9
          · exact akHeader_not_mem_workedExamples c h10
        · exact akHeader_not_mem_questionElements c h8

theorem getElem?_append_of_not_mem {α : Type} {x : α} (l₁ l₂ : List α) (i : Nat)
    (hx : x ∉ l₁) (h : (l₁ ++ l₂)[i]? = some x) :
    ∃ k, i = l₁.length + k ∧ l₂[k]? = some x := by
  by_cases hlt : i < l₁.length
  · exact absurd (List.getElem?_mem ((List.getElem?_append_left hlt) ▸ h)) hx
  · refine ⟨i - l₁.length, by omega, ?_⟩
    rwa [List.getElem?_append_right (by omega)] at h

theorem akHeader_position_in_tail (ak : List String) (k : Nat)
    (h : (Element.pageBreak :: akHeader ::
        Element.par "<i>For teacher/tutor reference</i>" "Answer" ::
        Element.spacer 1 10 :: answerItems 1 ak)[k]? = some akHeader) :
    k = 1 := by
  match k with
  | 0 => rw [List.getElem?_cons_zero] at h; simp [akHeader] at h
  | 1 => rfl
  | 2 =>
    simp only [List.getElem?_cons_succ, List.getElem?_cons_zero] at h
    simp [akHeader] at h
  | 3 =>
    simp only [List.getElem?_cons_succ, List.getElem?_cons_zero] at h
    simp [akHeader] at h
  | k + 4 =>
    simp only [List.getElem?_cons_succ] at h
    exact absurd (List.getElem?_mem h) (akHeader_not_mem_answerItems ak 1)

theorem answerItems_getElem (as_ : List String) :
    ∀ (n j : Nat) (a : String), as_[j]? = some a →
      (answerItems n as_)[j]? =
        some (Element.par ("<b>" ++ (⟨natDecimal (n + j)⟩ : String) ++ ".</b> " ++ a)
          "CustomBodyText") := by
  induction as_ with
  | nil => intro n j a h; simp at h
  | cons b rest ih =>
    intro n j a h
    match j with
    | 0 =>
      rw [List.getElem?_cons_zero] at h
      injection h with h
      subst h
      simp [answerItems]
    | j + 1 =>
      rw [List.getElem?_cons_succ] at h
      show (answerItems n (b :: rest))[j + 1]? = _
      unfold answerItems
      rw [List.getElem?_cons_succ, ih (n + 1) j a h]
      have e : n + 1 + j = n + (j + 1) := by omega
      rw [e]

/-- C1: the document contains an answer-key section iff `include_answers`
is true and the answer key is non-empty (independently of the other
content fields, practice questions included); when present, the section
header is immediately preceded by a page break, and the answers are
numbered consecutively from 1 in list order. -/
theorem answer_key_section_spec :
    ∀ (c : Content) (subject grade : String) (inc : Bool) (date_str : String),
      (akHeader ∈ generate_pdf c subject grade inc date_str ↔
        inc = true ∧ c.answer_key ≠ []) ∧
      (∀ i : Nat,
        (generate_pdf c subject grade inc date_str)[i]? = some akHeader →
        1 ≤ i ∧ (generate_pdf c subject grade inc date_str)[i - 1]? =
          some Element.pageBreak) ∧
      (∀ i : Nat,
        (generate_pdf c subject grade inc date_str)[i]? = some akHeader →
        ∀ (j : Nat) (a : String), c.answer_key[j]? = some a →
          (generate_pdf c subject grade inc date_str)[i + 3 + j]? =
            some (Element.par ("<b>" ++ (⟨natDecimal (j + 1)⟩ : String) ++ ".</b> " ++ a)
              "CustomBodyText")) := by
  intro c subject grade inc date_str
  rw [generate_pdf_split]
  by_cases hcond : inc = true ∧ c.answer_key ≠ []
  · have htail : answerKeyElements c inc
        = Element.pageBreak :: akHeader ::
            Element.par "<i>For teacher/tutor reference</i>" "Answer" ::
            Element.spacer 1 10 :: answerItems 1 c.answer_key := by
      unfold answerKeyElements
      rw [if_pos hcond]
    rw [htail]
    refine ⟨?_, ?_, ?_⟩
    · refine iff_of_true ?_ hcond
      exact List.mem_append_right _ (by simp)
    · intro i hi
      obtain ⟨k, hik, hk⟩ := getElem?_append_of_not_mem _ _ i
        (akHeader_not_mem_main c subject grade date_str) hi
      have hk1 : k = 1 := akHeader_position_in_tail c.answer_key k hk
      subst hk1
      constructor
      · omega
      · have : i - 1 = (mainElements c subject grade date_str).length := by omega
        rw [this, List.getElem?_append_right (Nat.le_refl _), Nat.sub_self,
          List.getElem?_cons_zero]
    · intro i hi j a hj
      obtain ⟨k, hik, hk⟩ := getElem?_append_of_not_mem _ _ i
        (akHeader_not_mem_main c subject grade date_str) hi
      have hk1 : k = 1 := akHeader_position_in_tail c.answer_key k hk
      subst hk1
      have hidx : i + 3 + j = (mainElements c subject grade date_str).length
          + (4 + j) := by omega
      rw [hidx, List.getElem?_append_right (by omega), Nat.add_sub_cancel_left]
      have hstep : ∀ (x1 x2 x3 x4 : Element) (l : List Element) (m : Nat),
          (x1 :: x2 :: x3 :: x4 :: l)[4 + m]? = l[m]? := by
        intro x1 x2 x3 x4 l m
        have e4 : 4 + m = m + 1 + 1 + 1 + 1 := by omega
        rw [e4]
        simp [List.getElem?_cons_succ]
      rw [hstep]
      have := answerItems_getElem c.answer_key 1 j a hj
      rw [this]
      have e : 1 + j = j + 1 := by omega
      rw [e]
  · have htail : answerKeyElements c inc = [] := by
      unfold answerKeyElements
      rw [if_neg hcond]
    rw [htail, List.append_nil]
    refine ⟨iff_of_false (akHeader_not_mem_main c subject grade date_str) hcond,
      ?_, ?_⟩
    · intro i hi
      exact absurd (List.getElem?_mem hi)
        (akHeader_not_mem_main c subject grade date_str)
    · intro i hi
      exact absurd (List.getElem?_mem hi)
        (akHeader_not_mem_main c subject grade date_str)

theorem answer_key_section_spec_witness :
    akHeader ∈ generate_pdf ⟨none, none, [], [], ["42"]⟩ "math" "3" true "Jan 01, 2026" ∧
    (1 ≤ 4 ∧ (generate_pdf ⟨none, none, [], [], ["42"]⟩ "math" "3" true
      "Jan 01, 2026")[4 - 1]? = some Element.pageBreak) ∧
    (generate_pdf ⟨none, none, [], [], ["42"]⟩ "math" "3" true
      "Jan 01, 2026")[4 + 3 + 0]? =
        some (Element.par ("<b>" ++ (⟨natDecimal (0 + 1)⟩ : String) ++ ".</b> " ++ "42")
          "CustomBodyText") :=
  ⟨(answer_key_section_spec ⟨none, none, [], [], ["42"]⟩ "math" "3" true
      "Jan 01, 2026").1.mpr ⟨rfl, by decide⟩,
   (answer_key_section_spec ⟨none, none, [], [], ["42"]⟩ "math" "3" true
      "Jan 01, 2026").2.1 4 (by decide),
   (answer_key_section_spec ⟨none, none, [], [], ["42"]⟩ "math" "3" true
      "Jan 01, 2026").2.2 4 (by decide) 0 "42" (by decide)⟩

theorem questionItems_mem (qs : List PracticeQuestion) :
    ∀ (n i : Nat) (q : PracticeQuestion), qs[i]? = some q →
      Element.par (questionText (n + i) q) "Question" ∈ questionItems n qs := by
  induction qs with
  | nil => intro n i q h; simp at h
  | cons b rest ih =>
    intro n i q h
    match i with
    | 0 =>
      rw [List.getElem?_cons_zero] at h
      injection h with h
      subst h
      simp [questionItems]
    | i + 1 =>
      rw [List.getElem?_cons_succ] at h
      unfold questionItems
      have := ih (n + 1) i q h
      have e : n + 1 + i = n + (i + 1) := by omega
      rw [e] at this
      exact List.mem_cons_of_mem _ (List.mem_cons_of_mem _ this)

/-- C6: the difficulty badge color is chosen by case-insensitive matching
against "easy"/"medium"/"hard", each with its own color, every other
value falling back to a fourth distinct color; "HARD" gets the hard color,
and every practice question is rendered with `questionText`, which embeds
`diffColor` of its difficulty. -/
theorem difficulty_treatment_spec :
    (∀ d : String, diffColor d =
      (if lowerS d = "easy" then "#10B981"
       else if lowerS d = "medium" then "#F59E0B"
       else if lowerS d = "hard" then "#EF4444"
       else "#6B7280")) ∧
    (("#10B981" : String) ≠ "#F59E0B" ∧ ("#10B981" : String) ≠ "#EF4444" ∧
     ("#10B981" : String) ≠ "#6B7280" ∧ ("#F59E0B" : String) ≠ "#EF4444" ∧
     ("#F59E0B" : String) ≠ "#6B7280" ∧ ("#EF4444" : String) ≠ "#6B7280") ∧
    diffColor "HARD" = "#EF4444" ∧
    (∀ (c : Content) (subject grade : String) (inc : Bool) (date_str : String)
       (i : Nat) (q : PracticeQuestion),
      c.practice_questions[i]? = some q →
      Element.par (questionText (i + 1) q) "Question"
        ∈ generate_pdf c subject grade inc date_str) := by
  refine ⟨?_, by refine ⟨?_, ?_, ?_, ?_, ?_, ?_⟩ <;> decide, by decide, ?_⟩
  · intro d
    by_cases h1 : lowerS d = "easy"
    · simp [diffColor, difficulty_colors, List.lookup, h1]
    · by_cases h2 : lowerS d = "medium"
      · simp [diffColor, difficulty_colors, List.lookup, h1, h2]
      · by_cases h3 : lowerS d = "hard"
        · simp [diffColor, difficulty_colors, List.lookup, h1, h2, h3]
        · have b1 : (lowerS d == "easy") = false := beq_eq_false_iff_ne.mpr h1
          have b2 : (lowerS d == "medium") = false := beq_eq_false_iff_ne.mpr h2
          have b3 : (lowerS d == "hard") = false := beq_eq_false_iff_ne.mpr h3
          simp [diffColor, difficulty_colors, List.lookup, b1, b2, b3, h1, h2, h3]
  · intro c subject grade inc date_str i q hq
    have hne : c.practice_questions ≠ [] := by
      intro hnil
      rw [hnil] at hq
      simp at hq
    have hmem : Element.par (questionText (1 + i) q) "Question"
        ∈ questionItems 1 c.practice_questions :=
      questionItems_mem c.practice_questions 1 i q hq
    have e : 1 + i = i + 1 := by omega
    rw [e] at hmem
    unfold generate_pdf
    refine List.mem_cons_of_mem _ (List.mem_cons_of_mem _ (List.mem_cons_of_mem _ ?_))
    refine List.mem_append_left _ (List.mem_append_right _ ?_)
    unfold questionElements
    rw [if_pos hne]
    exact List.mem_cons_of_mem _ (List.mem_append_left _ hmem)

theorem difficulty_treatment_spec_witness :
    Element.par (questionText (0 + 1) ⟨some "What is 2+2?", some "HARD"⟩) "Question"
      ∈ generate_pdf ⟨none, none, [], [⟨some "What is 2+2?", some "HARD"⟩], []⟩
          "math" "3" true "Jan 01, 2026" :=
  difficulty_treatment_spec.2.2.2
    ⟨none, none, [], [⟨some "What is 2+2?", some "HARD"⟩], []⟩
    "math" "3" true "Jan 01, 2026" 0 ⟨some "What is 2+2?", some "HARD"⟩ (by decide)

/-! ### Character-level facts about the ASCII case mapping -/

theorem charEqOfToNat {c d : Char} (h : c.toNat = d.toNat) : c = d :=
  Char.eq_of_val_eq (UInt32.ext h)

theorem char_ne_of_toNat {c d : Char} (h : c.toNat ≠ d.toNat) : c ≠ d :=
  fun e => h (congrArg Char.toNat e)

theorem toNat_ofNat_valid {n : Nat} (h : n.isValidChar) :
    (Char.ofNat n).toNat = n := by
  simp [Char.ofNat, h]
  rfl

theorem toLower_def (c : Char) :
    c.toLower = if c.toNat ≥ 65 ∧ c.toNat ≤ 90 then Char.ofNat (c.toNat + 32) else c :=
  rfl

theorem toUpper_def (c : Char) :
    c.toUpper = if c.toNat ≥ 97 ∧ c.toNat ≤ 122 then Char.ofNat (c.toNat - 32) else c :=
  rfl

theorem toLower_toNat (c : Char) :
    c.toLower.toNat = if c.toNat ≥ 65 ∧ c.toNat ≤ 90 then c.toNat + 32 else c.toNat := by
  rw [toLower_def]
  split
  · next h => exact toNat_ofNat_valid (Or.inl (by omega))
  · rfl

theorem toUpper_toNat (c : Char) :
    c.toUpper.toNat = if c.toNat ≥ 97 ∧ c.toNat ≤ 122 then c.toNat - 32 else c.toNat := by
  rw [toUpper_def]
  split
  · next h => exact toNat_ofNat_valid (Or.inl (by omega))
  · rfl

theorem toLower_toLower (c : Char) : c.toLower.toLower = c.toLower := by
  apply charEqOfToNat
  by_cases h : c.toNat ≥ 65 ∧ c.toNat ≤ 90
  · have h1 : c.toLower.toNat = c.toNat + 32 := by rw [toLower_toNat, if_pos h]
    rw [toLower_toNat, h1, if_neg (by omega)]
  · have h1 : c.toLower.toNat = c.toNat := by rw [toLower_toNat, if_neg h]
    rw [toLower_toNat, h1, if_neg h]

theorem toLower_toUpper (c : Char) : c.toUpper.toLower = c.toLower := by
  apply charEqOfToNat
  by_cases h : c.toNat ≥ 97 ∧ c.toNat ≤ 122
  · have h1 : c.toUpper.toNat = c.toNat - 32 := by rw [toUpper_toNat, if_pos h]
    rw [toLower_toNat, h1, if_pos (by omega), toLower_toNat, if_neg (by omega)]
    omega
  · have h1 : c.toUpper.toNat = c.toNat := by rw [toUpper_toNat, if_neg h]
    rw [toLower_toNat, h1, toLower_toNat]

theorem beq_char_toNat (c d : Char) : (c == d) = (c.toNat == d.toNat) := by
  rw [Bool.eq_iff_iff, beq_iff_eq, beq_iff_eq]
  exact ⟨fun h => congrArg Char.toNat h, charEqOfToNat⟩

theorem isSpace_toNat (c : Char) :
    isSpace c = (c.toNat == 32 || c.toNat == 9 || c.toNat == 13 || c.toNat == 10) := by
  show (c == ' ' || c == '\t' || c == '\r' || c == '\n') = _
  rw [beq_char_toNat, beq_char_toNat, beq_char_toNat, beq_char_toNat]
  rfl

theorem isSpace_toLower (c : Char) : isSpace c.toLower = isSpace c := by
  rw [isSpace_toNat, isSpace_toNat, toLower_toNat]
  by_cases h : c.toNat ≥ 65 ∧ c.toNat ≤ 90
  · rw [if_pos h]
    have hL : (c.toNat + 32 == 32 || c.toNat + 32 == 9 || c.toNat + 32 == 13
        || c.toNat + 32 == 10) = false := by
      simp only [Bool.or_eq_false_iff, beq_eq_false_iff_ne]
      omega
    have hR : (c.toNat == 32 || c.toNat == 9 || c.toNat == 13
        || c.toNat == 10) = false := by
      simp only [Bool.or_eq_false_iff, beq_eq_false_iff_ne]
      omega
    rw [hL, hR]
  · rw [if_neg h]

theorem isSpace_toUpper (c : Char) : isSpace c.toUpper = isSpace c := by
  rw [isSpace_toNat, isSpace_toNat, toUpper_toNat]
  by_cases h : c.toNat ≥ 97 ∧ c.toNat ≤ 122
  · rw [if_pos h]
    have hL : (c.toNat - 32 == 32 || c.toNat - 32 == 9 || c.toNat - 32 == 13
        || c.toNat - 32 == 10) = false := by
      simp only [Bool.or_eq_false_iff, beq_eq_false_iff_ne]
      omega
    have hR : (c.toNat == 32 || c.toNat == 9 || c.toNat == 13
        || c.toNat == 10) = false := by
      simp only [Bool.or_eq_false_iff, beq_eq_false_iff_ne]
      omega
    rw [hL, hR]
  · rw [if_neg h]

theorem titleChar_toLower (b : Bool) (c : Char) :
    (titleChar b c).toLower = c.toLower := by
  unfold titleChar
  by_cases h : c.isAlpha = true
  · rw [if_pos h]
    cases b
    · simp only [Bool.false_eq_true, if_false]
      exact toLower_toUpper c
    · simp only [if_true]
      exact toLower_toLower c
  · rw [if_neg h]

theorem titleChar_isSpace (b : Bool) (c : Char) :
    isSpace (titleChar b c) = isSpace c := by
  unfold titleChar
  by_cases h : c.isAlpha = true
  · rw [if_pos h]
    cases b
    · simp only [Bool.false_eq_true, if_false]
      exact isSpace_toUpper c
    · simp only [if_true]
      exact isSpace_toLower c
  · rw [if_neg h]

/-! ### List-level facts about strip, lower and title -/

theorem mem_of_headOpt {s : List Char} {c : Char} (h : s.head? = some c) : c ∈ s := by
  cases s with
  | nil => simp at h
  | cons a as =>
    rw [List.head?_cons] at h
    injection h with h
    exact h ▸ List.mem_cons_self a as

theorem mem_of_getLastOpt {s : List Char} {c : Char} (h : s.getLast? = some c) : c ∈ s := by
  induction s with
  | nil => simp at h
  | cons a as ih =>
    cases as with
    | nil =>
      simp at h
      subst h
      exact List.mem_cons_self _ _
    | cons b bs =>
      rw [List.getLast?_cons_cons] at h
      exact List.mem_cons_of_mem a (ih h)

theorem dropWhile_no_head (p : Char → Bool) (l : List Char) :
    ∀ c, (l.dropWhile p).head? = some c → p c = false := by
  induction l with
  | nil => intro c h; simp at h
  | cons a as ih =>
    intro c h
    rw [List.dropWhile_cons] at h
    by_cases hp : p a = true
    · rw [if_pos hp] at h
      exact ih c h
    · rw [if_neg hp] at h
      rw [List.head?_cons] at h
      injection h with h
      subst h
      exact Bool.not_eq_true _ ▸ by simpa using hp

theorem dropWhile_eq_self_of_head (p : Char → Bool) (l : List Char)
    (h : ∀ c, l.head? = some c → p c = false) : l.dropWhile p = l := by
  cases l with
  | nil => rfl
  | cons a as =>
    rw [List.dropWhile_cons, if_neg]
    simp [h a rfl]

theorem stripL_eq_self (s : List Char)
    (h1 : ∀ c, s.head? = some c → isSpace c = false)
    (h2 : ∀ c, s.getLast? = some c → isSpace c = false) : stripL s = s := by
  unfold stripL
  rw [dropWhile_eq_self_of_head _ _ h1]
  rw [dropWhile_eq_self_of_head _ _ (by
    intro c hc
    apply h2
    rwa [List.head?_reverse] at hc)]
  exact List.reverse_reverse s

theorem stripL_eq_self_of_no_space (s : List Char)
    (h : ∀ c ∈ s, isSpace c = false) : stripL s = s :=
  stripL_eq_self s (fun c hc => h c (mem_of_headOpt hc))
    (fun c hc => h c (mem_of_getLastOpt hc))

theorem getLast?_dropWhile (p : Char → Bool) (l : List Char)
    (h : l.dropWhile p ≠ []) : (l.dropWhile p).getLast? = l.getLast? := by
  induction l with
  | nil => simp at h
  | cons a as ih =>
    rw [List.dropWhile_cons] at h ⊢
    by_cases hp : p a = true
    · rw [if_pos hp] at h ⊢
      rw [ih h]
      have hne : as ≠ [] := by
        intro e
        rw [e] at h
        simp at h
      cases as with
      | nil => exact absurd rfl hne
      | cons b bs => rw [List.getLast?_cons_cons]
    · rw [if_neg hp] at h ⊢

theorem stripL_stripped_head (s : List Char) :
    ∀ c, (stripL s).head? = some c → isSpace c = false := by
  intro c hc
  unfold stripL at hc
  rw [List.head?_reverse] at hc
  by_cases hz : (s.dropWhile isSpace).reverse.dropWhile isSpace = []
  · rw [hz] at hc
    simp at hc
  · rw [getLast?_dropWhile _ _ hz, List.getLast?_reverse] at hc
    exact dropWhile_no_head _ _ c hc

theorem stripL_stripped_last (s : List Char) :
    ∀ c, (stripL s).getLast? = some c → isSpace c = false := by
  intro c hc
  unfold stripL at hc
  rw [List.getLast?_reverse] at hc
  exact dropWhile_no_head _ _ c hc

theorem stripL_idem (s : List Char) : stripL (stripL s) = stripL s :=
  stripL_eq_self _ (stripL_stripped_head s) (stripL_stripped_last s)

theorem map_eq_self_of_fixed {f : Char → Char} :
    ∀ s : List Char, (∀ c ∈ s, f c = c) → s.map f = s := by
  intro s h
  induction s with
  | nil => rfl
  | cons a as ih =>
    rw [List.map_cons, h a (List.mem_cons_self a as),
      ih (fun c hc => h c (List.mem_cons_of_mem a hc))]

theorem lowerL_idem (s : List Char) : lowerL (lowerL s) = lowerL s := by
  unfold lowerL
  rw [List.map_map]
  exact List.map_congr_left (fun c _ => toLower_toLower c)

theorem dropWhile_map_comm (f : Char → Char) (p : Char → Bool)
    (hf : ∀ c, p (f c) = p c) (s : List Char) :
    (s.map f).dropWhile p = (s.dropWhile p).map f := by
  induction s with
  | nil => rfl
  | cons c cs ih =>
    rw [List.map_cons, List.dropWhile_cons, List.dropWhile_cons, hf c]
    by_cases h : p c = true
    · rw [if_pos h, if_pos h, ih]
    · rw [if_neg h, if_neg h, List.map_cons]

theorem stripL_map (f : Char → Char) (hf : ∀ c, isSpace (f c) = isSpace c)
    (s : List Char) : stripL (s.map f) = (stripL s).map f := by
  unfold stripL
  rw [dropWhile_map_comm f isSpace hf, ← List.map_reverse,
    dropWhile_map_comm f isSpace hf, ← List.map_reverse]

theorem stripL_lowerL (s : List Char) : stripL (lowerL s) = lowerL (stripL s) :=
  stripL_map Char.toLower isSpace_toLower s

theorem lowerL_titleAux (s : List Char) :
    ∀ b : Bool, lowerL (titleAux b s) = lowerL s := by
  induction s with
  | nil => intro b; rfl
  | cons c cs ih =>
    intro b
    show lowerL (titleChar b c :: titleAux c.isAlpha cs) = lowerL (c :: cs)
    unfold lowerL
    rw [List.map_cons, List.map_cons, titleChar_toLower b c]
    have := ih c.isAlpha
    unfold lowerL at this
    rw [this]

theorem titleAux_getLast_isSpace (s : List Char) :
    ∀ (b : Bool) (c : Char), (titleAux b s).getLast? = some c →
      ∃ c', s.getLast? = some c' ∧ isSpace c = isSpace c' := by
  induction s with
  | nil => intro b c h; simp [titleAux] at h
  | cons a as ih =>
    intro b c h
    cases as with
    | nil =>
      show ∃ c', some a = some c' ∧ _
      refine ⟨a, rfl, ?_⟩
      have : titleAux b [a] = [titleChar b a] := rfl
      rw [this] at h
      simp at h
      rw [← h]
      exact titleChar_isSpace b a
    | cons a2 as2 =>
      have hexp : titleAux b (a :: a2 :: as2)
          = titleChar b a :: titleChar a.isAlpha a2 :: titleAux a2.isAlpha as2 := rfl
      rw [hexp, List.getLast?_cons_cons] at h
      have h2 : (titleAux a.isAlpha (a2 :: as2)).getLast? = some c := h
      obtain ⟨c', hc', hsp⟩ := ih a.isAlpha c h2
      exact ⟨c', by rw [List.getLast?_cons_cons]; exact hc', hsp⟩

theorem stripL_titleAux (g : List Char) (hg : stripL g = g) :
    stripL (titleL g) = titleL g := by
  apply stripL_eq_self
  · intro c hc
    cases g with
    | nil => simp [titleL, titleAux] at hc
    | cons a as =>
      have hexp : titleL (a :: as) = titleChar false a :: titleAux a.isAlpha as := rfl
      rw [hexp, List.head?_cons] at hc
      injection hc with hc
      subst hc
      rw [titleChar_isSpace]
      have : (stripL (a :: as)).head? = some a := by rw [hg, List.head?_cons]
      exact stripL_stripped_head (a :: as) a this
  · intro c hc
    obtain ⟨c', hc', hsp⟩ := titleAux_getLast_isSpace g false c hc
    rw [hsp]
    have : (stripL g).getLast? = some c' := by rw [hg]; exact hc'
    exact stripL_stripped_last g c' this

/-! ### Decimal rendering and parsing round trip -/

theorem digitChar_props {k : Nat} (h : k < 10) :
    (digitChar k).toLower = digitChar k ∧ isSpace (digitChar k) = false ∧
    (digitChar k).isDigit = true ∧ digitChar k ≠ '-' ∧ digitChar k ≠ '+' ∧
    digitChar k ≠ 'k' ∧ digitChar k ≠ 'a' ∧ digitChar k ≠ 'g' ∧
    digitChar k ≠ 't' ∧ digitChar k ≠ 'r' ∧ digitChar k ≠ 'n' ∧
    digitChar k ≠ 's' ∧ digitVal (digitChar k) = k := by
  interval_cases k <;> exact ⟨by decide, by decide, by decide, by decide,
    by decide, by decide, by decide, by decide, by decide, by decide,
    by decide, by decide, by decide⟩

theorem natDecimalAux_ne_nil : ∀ fuel m : Nat, natDecimalAux fuel m ≠ [] := by
  intro fuel m
  cases fuel with
  | zero => simp [natDecimalAux]
  | succ fuel =>
    unfold natDecimalAux
    by_cases h : m < 10
    · rw [if_pos h]; simp
    · rw [if_neg h]; simp

theorem natDecimalAux_chars :
    ∀ fuel m : Nat, ∀ c ∈ natDecimalAux fuel m, ∃ k, k < 10 ∧ c = digitChar k := by
  intro fuel
  induction fuel with
  | zero =>
    intro m c hc
    simp only [natDecimalAux, List.mem_singleton] at hc
    exact ⟨m % 10, by omega, hc⟩
  | succ fuel ih =>
    intro m c hc
    unfold natDecimalAux at hc
    by_cases h : m < 10
    · rw [if_pos h] at hc
      simp only [List.mem_singleton] at hc
      exact ⟨m, h, hc⟩
    · rw [if_neg h] at hc
      rcases List.mem_append.mp hc with h1 | h2
      · exact ih (m / 10) c h1
      · simp only [List.mem_singleton] at h2
        exact ⟨m % 10, by omega, h2⟩

theorem intDecimal_chars (n : Int) :
    ∀ c ∈ intDecimal n, c = '-' ∨ ∃ k, k < 10 ∧ c = digitChar k := by
  intro c hc
  unfold intDecimal at hc
  by_cases h : n < 0
  · rw [if_pos h] at hc
    rcases List.mem_cons.mp hc with h1 | h2
    · exact Or.inl h1
    · exact Or.inr (natDecimalAux_chars _ _ c h2)
  · rw [if_neg h] at hc
    exact Or.inr (natDecimalAux_chars _ _ c hc)

theorem natDecimalAux_foldl :
    ∀ fuel m a : Nat, m ≤ fuel →
      (natDecimalAux fuel m).foldl (fun acc c => 10 * acc + digitVal c) a
        = a * 10 ^ (natDecimalAux fuel m).length + m := by
  intro fuel
  induction fuel with
  | zero =>
    intro m a h
    have hm : m = 0 := by omega
    subst hm
    show (10 * a + digitVal (digitChar (0 % 10))) = a * 10 ^ 1 + 0
    rw [(digitChar_props (by omega : 0 % 10 < 10)).2.2.2.2.2.2.2.2.2.2.2.2]
    rw [pow_one]
    omega
  | succ fuel ih =>
    intro m a h
    unfold natDecimalAux
    by_cases hm : m < 10
    · rw [if_pos hm]
      show 10 * a + digitVal (digitChar m) = a * 10 ^ 1 + m
      rw [(digitChar_props hm).2.2.2.2.2.2.2.2.2.2.2.2, pow_one]
      omega
    · rw [if_neg hm]
      have hdiv : m / 10 ≤ fuel := by omega
      rw [List.foldl_append, ih (m / 10) a hdiv]
      simp only [List.foldl_cons, List.foldl_nil, List.length_append,
        List.length_singleton]
      rw [(digitChar_props (show m % 10 < 10 by omega)).2.2.2.2.2.2.2.2.2.2.2.2,
        pow_succ]
      have e2 : 10 * (m / 10) + m % 10 = m := Nat.div_add_mod m 10
      generalize (10:Nat) ^ (natDecimalAux fuel (m / 10)).length = P
      calc 10 * (a * P + m / 10) + m % 10
          = a * (P * 10) + (10 * (m / 10) + m % 10) := by ring
        _ = a * (P * 10) + m := by rw [e2]

theorem parseNat_natDecimal (m : Nat) : parseNat? (natDecimal m) = some m := by
  unfold parseNat? natDecimal
  rw [if_pos]
  · have := natDecimalAux_foldl m m 0 (Nat.le_refl m)
    rw [this]
    simp
  · constructor
    · exact natDecimalAux_ne_nil m m
    · rw [List.all_eq_true]
      intro c hc
      obtain ⟨k, hk, rfl⟩ := natDecimalAux_chars m m c hc
      exact (digitChar_props hk).2.2.1

theorem parseInt_cons (c : Char) (cs : List Char) :
    parseInt? (c :: cs) =
      if c = '-' then (parseNat? cs).map (fun m => -(m : Int))
      else if c = '+' then (parseNat? cs).map (fun m => (m : Int))
      else (parseNat? (c :: cs)).map (fun m => (m : Int)) := rfl

theorem parseInt_intDecimal (n : Int) : parseInt? (intDecimal n) = some n := by
  by_cases hn : n < 0
  · unfold intDecimal
    rw [if_pos hn]
    rw [parseInt_cons, if_pos rfl, parseNat_natDecimal]
    show some (-(n.natAbs : Int)) = some n
    congr 1
    omega
  · have hne := natDecimalAux_ne_nil n.toNat n.toNat
    obtain ⟨c, cs, hcons⟩ : ∃ c cs, natDecimal n.toNat = c :: cs := by
      cases h : natDecimal n.toNat with
      | nil => exact absurd h hne
      | cons c cs => exact ⟨c, cs, rfl⟩
    obtain ⟨k, hk, rfl⟩ : ∃ k, k < 10 ∧ c = digitChar k :=
      natDecimalAux_chars n.toNat n.toNat c (by
        rw [show natDecimalAux n.toNat n.toNat = natDecimal n.toNat from rfl, hcons]
        exact List.mem_cons_self _ _)
    unfold intDecimal
    rw [if_neg hn, hcons]
    rw [parseInt_cons, if_neg (digitChar_props hk).2.2.2.1,
      if_neg (digitChar_props hk).2.2.2.2.1, ← hcons, parseNat_natDecimal]
    show some ((n.toNat : Int)) = some n
    congr 1
    omega

/-! ### The replace chain is a no-op on decimal strings -/

theorem replaceAux_no_op (p : Char) (pt rep : List Char) :
    ∀ (fuel : Nat) (s : List Char), (∀ c ∈ s, c ≠ p) →
      replaceAux (p :: pt) rep fuel s = s := by
  intro fuel
  induction fuel with
  | zero => intro s h; cases s <;> rfl
  | succ fuel ih =>
    intro s h
    cases s with
    | nil => rfl
    | cons c cs =>
      show (if (p :: pt) ≠ [] ∧ (p :: pt).isPrefixOf (c :: cs) then _ else
        c :: replaceAux (p :: pt) rep fuel cs) = c :: cs
      rw [if_neg]
      · rw [ih cs (fun d hd => h d (List.mem_cons_of_mem c hd))]
      · intro hcontra
        have hsplit : (p == c && pt.isPrefixOf cs) = true := hcontra.2
        rw [Bool.and_eq_true] at hsplit
        exact h c (List.mem_cons_self c cs) (beq_iff_eq.mp hsplit.1).symm

theorem replaceL_no_op (p : Char) (pt rep : List Char) (s : List Char)
    (h : ∀ c ∈ s, c ≠ p) : replaceL (p :: pt) rep s = s :=
  replaceAux_no_op p pt rep s.length s h

/-! ### normalize_grade is idempotent -/

theorem lowerL_intDecimal (n : Int) : lowerL (intDecimal n) = intDecimal n := by
  unfold lowerL
  apply map_eq_self_of_fixed
  intro c hc
  rcases intDecimal_chars n c hc with rfl | ⟨k, hk, rfl⟩
  · decide
  · exact (digitChar_props hk).1

theorem no_space_intDecimal (n : Int) : ∀ c ∈ intDecimal n, isSpace c = false := by
  intro c hc
  rcases intDecimal_chars n c hc with rfl | ⟨k, hk, rfl⟩
  · decide
  · exact (digitChar_props hk).2.1

theorem stripL_intDecimal (n : Int) : stripL (intDecimal n) = intDecimal n :=
  stripL_eq_self_of_no_space _ (no_space_intDecimal n)

theorem replaceChain_no_op (s : List Char)
    (h : ∀ c ∈ s, c ≠ 'g' ∧ c ≠ 't' ∧ c ≠ 'r' ∧ c ≠ 'n' ∧ c ≠ 's') :
    replaceL "st".data [] (replaceL "nd".data [] (replaceL "rd".data []
      (replaceL "th".data [] (replaceL "grade".data [] s)))) = s := by
  have h1 : replaceL "grade".data [] s = s := by
    show replaceL ('g' :: "rade".data) [] s = s
    exact replaceL_no_op _ _ _ s (fun c hc => (h c hc).1)
  rw [h1]
  have h2 : replaceL "th".data [] s = s := by
    show replaceL ('t' :: "h".data) [] s = s
    exact replaceL_no_op _ _ _ s (fun c hc => (h c hc).2.1)
  rw [h2]
  have h3 : replaceL "rd".data [] s = s := by
    show replaceL ('r' :: "d".data) [] s = s
    exact replaceL_no_op _ _ _ s (fun c hc => (h c hc).2.2.1)
  rw [h3]
  have h4 : replaceL "nd".data [] s = s := by
    show replaceL ('n' :: "d".data) [] s = s
    exact replaceL_no_op _ _ _ s (fun c hc => (h c hc).2.2.2.1)
  rw [h4]
  show replaceL ('s' :: "t".data) [] s = s
  exact replaceL_no_op _ _ _ s (fun c hc => (h c hc).2.2.2.2)

theorem gradeIntParse_intDecimal (n : Int) :
    gradeIntParse (intDecimal n) = some n := by
  unfold gradeIntParse
  rw [replaceChain_no_op (intDecimal n) ?_, stripL_intDecimal, parseInt_intDecimal]
  intro c hc
  rcases intDecimal_chars n c hc with rfl | ⟨k, hk, rfl⟩
  · exact ⟨by decide, by decide, by decide, by decide, by decide⟩
  · exact ⟨(digitChar_props hk).2.2.2.2.2.2.2.1,
      (digitChar_props hk).2.2.2.2.2.2.2.2.1,
      (digitChar_props hk).2.2.2.2.2.2.2.2.2.1,
      (digitChar_props hk).2.2.2.2.2.2.2.2.2.2.1,
      (digitChar_props hk).2.2.2.2.2.2.2.2.2.2.2.1⟩

theorem intDecimal_ne_special (n : Int) :
    ¬(intDecimal n = "k".data ∨ intDecimal n = "kindergarten".data) ∧
    ¬(intDecimal n = "algebra 1".data ∨ intDecimal n = "algebra1".data ∨
      intDecimal n = "algebra".data) := by
  have hk : ∀ s : List Char, 'k' ∈ s → intDecimal n ≠ s := by
    intro s hs he
    have hmem : 'k' ∈ intDecimal n := by rw [he]; exact hs
    rcases intDecimal_chars n 'k' hmem with h1 | ⟨k, hk10, h2⟩
    · exact absurd h1 (by decide)
    · exact (digitChar_props hk10).2.2.2.2.2.1 h2.symm
  have ha : ∀ s : List Char, 'a' ∈ s → intDecimal n ≠ s := by
    intro s hs he
    have hmem : 'a' ∈ intDecimal n := by rw [he]; exact hs
    rcases intDecimal_chars n 'a' hmem with h1 | ⟨k, hk10, h2⟩
    · exact absurd h1 (by decide)
    · exact (digitChar_props hk10).2.2.2.2.2.2.1 h2.symm
  refine ⟨?_, ?_⟩
  · rintro (h | h)
    · exact hk "k".data (by decide) h
    · exact hk "kindergarten".data (by decide) h
  · rintro (h | h | h)
    · exact ha "algebra 1".data (by decide) h
    · exact ha "algebra1".data (by decide) h
    · exact ha "algebra".data (by decide) h

theorem normalizeGradeL_def (l : List Char) :
    normalizeGradeL l =
      (if lowerL (stripL l) = "k".data ∨ lowerL (stripL l) = "kindergarten".data
       then "K".data
       else if lowerL (stripL l) = "algebra 1".data
          ∨ lowerL (stripL l) = "algebra1".data
          ∨ lowerL (stripL l) = "algebra".data then "Algebra 1".data
       else match gradeIntParse (lowerL (stripL l)) with
            | some n => intDecimal n
            | none => titleL (lowerL (stripL l))) := rfl

theorem normalizeGradeL_intDecimal (n : Int) :
    normalizeGradeL (intDecimal n) = intDecimal n := by
  rw [normalizeGradeL_def]
  have h0 : lowerL (stripL (intDecimal n)) = intDecimal n := by
    rw [stripL_intDecimal, lowerL_intDecimal]
  rw [h0, if_neg (intDecimal_ne_special n).1, if_neg (intDecimal_ne_special n).2,
    gradeIntParse_intDecimal]

theorem normalizeGradeL_idem (l : List Char) :
    normalizeGradeL (normalizeGradeL l) = normalizeGradeL l := by
  rw [normalizeGradeL_def l]
  by_cases h1 : lowerL (stripL l) = "k".data ∨ lowerL (stripL l) = "kindergarten".data
  · rw [if_pos h1]; decide
  · rw [if_neg h1]
    by_cases h2 : lowerL (stripL l) = "algebra 1".data
        ∨ lowerL (stripL l) = "algebra1".data ∨ lowerL (stripL l) = "algebra".data
    · rw [if_pos h2]; decide
    · rw [if_neg h2]
      have hA : lowerL (lowerL (stripL l)) = lowerL (stripL l) := lowerL_idem _
      have hB : stripL (lowerL (stripL l)) = lowerL (stripL l) := by
        rw [stripL_lowerL, stripL_idem]
      cases hp : gradeIntParse (lowerL (stripL l)) with
      | some n =>
        exact normalizeGradeL_intDecimal n
      | none =>
        show normalizeGradeL (titleL (lowerL (stripL l))) = titleL (lowerL (stripL l))
        rw [normalizeGradeL_def (titleL (lowerL (stripL l)))]
        have hstrip : stripL (titleL (lowerL (stripL l))) = titleL (lowerL (stripL l)) :=
          stripL_titleAux _ hB
        have hg : lowerL (stripL (titleL (lowerL (stripL l)))) = lowerL (stripL l) := by
          rw [hstrip]
          show lowerL (titleAux false (lowerL (stripL l))) = lowerL (stripL l)
          rw [lowerL_titleAux (lowerL (stripL l)) false, hA]
        rw [hg, if_neg h1, if_neg h2, hp]

/-- C4: grade normalization is idempotent — for every input string g,
normalize_grade (normalize_grade g) equals normalize_grade g. -/
theorem normalize_grade_idempotent :
    ∀ g : String, normalize_grade (normalize_grade g) = normalize_grade g := by
  intro g
  show (⟨normalizeGradeL (normalizeGradeL g.data)⟩ : String) = ⟨normalizeGradeL g.data⟩
  exact congrArg String.mk (normalizeGradeL_idem g.data)

end Steelworks
